import Mathlib

/-!
Verification development for the Scrappers GIF renderer (`render.go`).

The Go source is shallowly embedded below:
* `image.Rectangle` becomes `Rect` (four `Int` fields, min/max per axis);
* Go machine integers become `Int` (coordinates in these claims never
  approach the 64-bit range, so wrap-around is not modelled);
* Go integer division `/` (truncation toward zero) becomes `Int.tdiv`;
* `float64` arithmetic in the point transformer becomes exact `ℚ`
  arithmetic (the spec states its mapping bounds "up to rounding");
* `log.Fatalf` becomes an `Except.error` result;
* the draw/quantize worker pipeline becomes an explicit list of slot
  writes performed in an arbitrary completion order.
-/

namespace Renderer

/-- Embedding of `image.Rectangle`: `Min.X`, `Min.Y`, `Max.X`, `Max.Y`. -/
structure Rect where
  MinX : Int
  MinY : Int
  MaxX : Int
  MaxY : Int
deriving DecidableEq, Repr

/-- Embedding of the `Bot` struct of `render.go`. -/
structure Bot where
  PID : Int
  BID : Int
  X : Int
  Y : Int
  TX : Int
  TY : Int
  Health : Int
  Fired : Bool
  HitX : Int
  HitY : Int
  Scrap : Nat
  Shield : Bool
  FPow : Int
  MPow : Int
  SPow : Int
deriving DecidableEq, Repr

set_option linter.dupNamespace false in
/-- Embedding of the `Tick` struct of `render.go`. -/
structure Tick where
  Tick : Int
  Bots : List Bot
deriving DecidableEq, Repr

/-- Constant `BotSize` of `render.go`. -/
def BotSize : Int := 60

/-- Constant `Padding = BotSize * 2` of `render.go`. -/
def Padding : Int := BotSize * 2

/-- Constant `ShrinkPercent` of `render.go`. -/
def ShrinkPercent : Int := 75

/-- One iteration of the accumulation loop in `Tick.Bounds`: the four
`if` updates widening the running rectangle to cover one bot. -/
def boundsStep (bounds : Rect) (bot : Bot) : Rect :=
  let bounds := if bot.X > bounds.MaxX then { bounds with MaxX := bot.X } else bounds
  let bounds := if bot.Y > bounds.MaxY then { bounds with MaxY := bot.Y } else bounds
  let bounds := if bot.X < bounds.MinX then { bounds with MinX := bot.X } else bounds
  let bounds := if bot.Y < bounds.MinY then { bounds with MinY := bot.Y } else bounds
  bounds

/-- Embedding of `Tick.Bounds`. The Go code reads `t.Bots[0]`
unconditionally to seed the rectangle, which is an out-of-range access
when the tick has no bots; the embedding returns `none` exactly in that
case and otherwise folds `boundsStep` over the whole bot list seeded
from the first bot, as the source does. -/
def Tick.Bounds (t : Renderer.Tick) : Option Rect :=
  match t.Bots with
  | [] => none
  | b0 :: _ => some (t.Bots.foldl boundsStep ⟨b0.X, b0.Y, b0.X, b0.Y⟩)

/-- Embedding of the `PointTransformer` struct: the stored (padded and
square-expanded) box and the scale ratio. -/
structure PointTransformer where
  Bounds : Rect
  ratio : ℚ
deriving DecidableEq, Repr

/-- The padding step at the start of `NewPointTransformer`: move every
side of the box outward by `padding`. -/
def padRect (bounds : Rect) (padding : Int) : Rect :=
  { MinX := bounds.MinX - padding
    MinY := bounds.MinY - padding
    MaxX := bounds.MaxX + padding
    MaxY := bounds.MaxY + padding }

/-- Embedding of `NewPointTransformer`. After padding, the longer axis
fixes the ratio `maxDim / length` and the shorter axis is expanded by
`extra / 2` (Go integer division, `Int.tdiv`) on each side. -/
def NewPointTransformer (bounds : Rect) (padding maxDim : Int) : PointTransformer :=
  let b := padRect bounds padding
  let xLength := b.MaxX - b.MinX
  let yLength := b.MaxY - b.MinY
  if xLength > yLength then
    let extra := xLength - yLength
    { Bounds := { b with MinY := b.MinY - Int.tdiv extra 2, MaxY := b.MaxY + Int.tdiv extra 2 }
      ratio := (maxDim : ℚ) / (xLength : ℚ) }
  else
    let extra := yLength - xLength
    { Bounds := { b with MinX := b.MinX - Int.tdiv extra 2, MaxX := b.MaxX + Int.tdiv extra 2 }
      ratio := (maxDim : ℚ) / (yLength : ℚ) }

/-- Embedding of `PointTransformer.X`. -/
def PointTransformer.X (pt : PointTransformer) (x : Int) : ℚ :=
  ((x + -1 * pt.Bounds.MinX : Int) : ℚ) * pt.ratio

/-- Embedding of `PointTransformer.Y`. -/
def PointTransformer.Y (pt : PointTransformer) (y : Int) : ℚ :=
  ((y + -1 * pt.Bounds.MinY : Int) : ℚ) * pt.ratio

/-- Embedding of `PointTransformer.Resize`. -/
def PointTransformer.Resize (pt : PointTransformer) (val : Int) : ℚ :=
  (val : ℚ) * pt.ratio

/-- The overflow rebuild condition of the main loop: the tick bounds,
margin-expanded by `BotSize`, fall outside the stored box on some side. -/
def overflowCheck (pt : PointTransformer) (tickBounds : Rect) : Bool :=
  decide (tickBounds.MinY - BotSize < pt.Bounds.MinY) ||
  decide (tickBounds.MinX - BotSize < pt.Bounds.MinX) ||
  decide (tickBounds.MaxY + BotSize > pt.Bounds.MaxY) ||
  decide (tickBounds.MaxX + BotSize > pt.Bounds.MaxX)

/-- The shrink rebuild condition of the main loop, with Go integer
division (`Int.tdiv`) exactly as in the source. -/
def shrinkCheck (pt : PointTransformer) (tickBounds : Rect) : Bool :=
  let thisYSize := tickBounds.MaxY - tickBounds.MinY
  let thisXSize := tickBounds.MaxX - tickBounds.MinX
  let ptYSize := pt.Bounds.MaxY - pt.Bounds.MinY
  let ptXSize := pt.Bounds.MaxX - pt.Bounds.MinX
  decide (Int.tdiv (thisYSize * 100) ptYSize ≤ ShrinkPercent) &&
  decide (Int.tdiv (thisXSize * 100) ptXSize ≤ ShrinkPercent)

/-- One iteration of the transformer maintenance in the main loop: the
overflow check (rebuilding if it fires), then the shrink check against
the possibly already rebuilt transformer (rebuilding again if it fires). -/
def loopStep (imageSize : Int) (pt : PointTransformer) (tickBounds : Rect) : PointTransformer :=
  let pt := if overflowCheck pt tickBounds then NewPointTransformer tickBounds Padding imageSize else pt
  let pt := if shrinkCheck pt tickBounds then NewPointTransformer tickBounds Padding imageSize else pt
  pt

/-- The transformer used to render tick `i`: the initial transformer is
built from tick 0 before the loop, and each iteration `0, …, i` applies
`loopStep` to the carried transformer and that iteration's tick bounds. -/
def usedTransformer (imageSize : Int) (tbs : List Rect) (i : Nat) (h : i < tbs.length) :
    PointTransformer :=
  (tbs.take (i + 1)).foldl (loopStep imageSize)
    (NewPointTransformer (tbs.get ⟨0, Nat.lt_of_le_of_lt (Nat.zero_le i) h⟩) Padding imageSize)

/-- The finalized frame-delay list: every slot gets `100 / v` inside the
main loop, then slot `0` is set to `100 / 100` and slot `n - 1` to
`100 / v * 10` after the loop, in that order, exactly as in `main`. -/
def finalizeDelays (n v : Nat) : List Nat :=
  ((List.replicate n (100 / v)).set 0 (100 / 100)).set (n - 1) (100 / v * 10)

/-- The fatal message of the bot-body loop in `main`. -/
def FatalTwoPlayers : String := "This program does not support more than two players."

/-- Embedding of the bot-body drawing loop of `main`: dead bots are
skipped, player 1 and player 2 bots are drawn, and any other living
bot's player id aborts the run via `log.Fatalf`. -/
def drawBots : List Bot → Except String Unit
  | [] => Except.ok ()
  | bot :: rest =>
    if bot.Health ≤ 0 then drawBots rest
    else if bot.PID = 1 then drawBots rest
    else if bot.PID = 2 then drawBots rest
    else Except.error FatalTwoPlayers

/-- The quantize workers of `convert`: each published index `i` causes
exactly one write of the quantized frame `qd i` into slot `i` of the
`converted` array; `order` is the order in which those writes land. -/
def applyWrites {Q : Type} (qd : Nat → Q) : List Nat → (Nat → Option Q) → Nat → Option Q
  | [], converted => converted
  | i :: rest, converted =>
    applyWrites qd rest (fun j => if j = i then some (qd i) else converted j)

/-- The draw/quantize pipeline: the driver publishes each index after
writing `draw i` into the `drawn` slot, a worker quantizes that slot
into the `converted` slot, and `order` is the completion order across
the worker pool. The result is the final `converted` array. -/
def runPipeline {F Q : Type} (draw : Nat → F) (quantize : F → Q) (order : List Nat) :
    Nat → Option Q :=
  applyWrites (fun i => quantize (draw i)) order (fun _ => none)

/-! Helper lemmas shared by several proofs. -/

/-- Go truncating division of a nonnegative integer by 2 agrees with
Euclidean division. -/
lemma tdiv_two_of_nonneg (a : Int) (h : 0 ≤ a) : Int.tdiv a 2 = a / 2 := by
  obtain ⟨n, rfl⟩ := Int.eq_ofNat_of_zero_le h
  rfl

/-- The overflow condition never fires against the transformer freshly
built from the very tick bounds being tested: padding moves every side
out by 120 and the squaring step only moves sides further out. -/
lemma overflowCheck_rebuild_aux (tb : Rect) (maxDim : Int) :
    overflowCheck (NewPointTransformer tb Padding maxDim) tb = false := by
  simp only [overflowCheck, NewPointTransformer, padRect, Padding, BotSize,
    Bool.or_eq_false_iff, decide_eq_false_iff_not, not_lt]
  split
  · rw [tdiv_two_of_nonneg]
    · dsimp only
      omega
    · omega
  · rw [tdiv_two_of_nonneg]
    · dsimp only
      omega
    · omega

/-- C1 (counterexample): for the bounding box of two bots at `(0,0)` and
`(1,0)` (width 1, height 0), padding 120 and target size 600, the stored
box has width 241 but height 240: the Go expression `extra / 2` truncates
`1 / 2` to `0`, so the shorter dimension is not expanded at all and the
stored box is not square. -/
theorem transformer_square_cex :
    ((NewPointTransformer ⟨0, 0, 1, 0⟩ 120 600).Bounds.MaxX -
      (NewPointTransformer ⟨0, 0, 1, 0⟩ 120 600).Bounds.MinX) ≠
    ((NewPointTransformer ⟨0, 0, 1, 0⟩ 120 600).Bounds.MaxY -
      (NewPointTransformer ⟨0, 0, 1, 0⟩ 120 600).Bounds.MinY) := by
  decide

/-- C1 (amended): for every bounding box, padding and target size, the
stored box's width and height differ by exactly the parity of the
difference of the original width and height: they are equal when that
difference is even, and differ by exactly 1 when it is odd, because the
symmetric expansion adds `(longer - shorter) / 2` (truncating integer
division) to each side of the shorter dimension. -/
theorem transformer_box_dims_parity (B : Rect) (padding maxDim : Int) :
    (((NewPointTransformer B padding maxDim).Bounds.MaxX -
       (NewPointTransformer B padding maxDim).Bounds.MinX) -
      ((NewPointTransformer B padding maxDim).Bounds.MaxY -
       (NewPointTransformer B padding maxDim).Bounds.MinY)).natAbs =
    ((B.MaxX - B.MinX) - (B.MaxY - B.MinY)).natAbs % 2 := by
  simp only [NewPointTransformer, padRect]
  split
  · rw [tdiv_two_of_nonneg]
    · dsimp only
      omega
    · omega
  · rw [tdiv_two_of_nonneg]
    · dsimp only
      omega
    · omega

/-- C2 (code evaluation at the failing input): with 2 ticks and the
default speed of 12 ticks per second, the finalized delay list is
`[1, 80]` — the first slot is `100 / 100 = 1` hundredth of a second, not
the full second (`100`) that the claim states and that the source
comment "Let first and last frame linger" intends. -/
theorem finalizeDelays_first_slot_bug : finalizeDelays 2 12 = [1, 80] := by
  decide

/-- C8: with exactly one tick, the first-slot override `100 / 100` is
overwritten by the last-slot override, and the single finalized delay is
`100 / v * 10` for every configured speed `v`. -/
theorem finalizeDelays_single_tick (v : Nat) : finalizeDelays 1 v = [100 / v * 10] := rfl

/-- C9: for every well-formed bounding box (min ≤ max on both axes) and
every target size, padding by `Padding = 120` makes both padded lengths
at least 240, and the stored box of the transformer keeps both its width
and its height at least 240; hence the lengths divided by during
construction and the stored sizes divided by in the shrink check are
never zero. -/
theorem transformer_box_nondegenerate (B : Rect) (maxDim : Int)
    (hx : B.MinX ≤ B.MaxX) (hy : B.MinY ≤ B.MaxY) :
    (240 ≤ (padRect B Padding).MaxX - (padRect B Padding).MinX ∧
     240 ≤ (padRect B Padding).MaxY - (padRect B Padding).MinY) ∧
    (240 ≤ (NewPointTransformer B Padding maxDim).Bounds.MaxX -
           (NewPointTransformer B Padding maxDim).Bounds.MinX ∧
     240 ≤ (NewPointTransformer B Padding maxDim).Bounds.MaxY -
           (NewPointTransformer B Padding maxDim).Bounds.MinY) := by
  refine ⟨⟨?_, ?_⟩, ?_⟩
  · simp only [padRect, Padding, BotSize]
    omega
  · simp only [padRect, Padding, BotSize]
    omega
  · simp only [NewPointTransformer, padRect, Padding, BotSize]
    split
    · rw [tdiv_two_of_nonneg]
      · dsimp only
        omega
      · omega
    · rw [tdiv_two_of_nonneg]
      · dsimp only
        omega
      · omega

/-- C9 (witness): the degenerate single-bot box at the origin satisfies
the hypotheses, and the padded and stored boxes are at least 240 wide
and tall. -/
theorem transformer_box_nondegenerate_witness :
    ((0 : Int) ≤ 0 ∧ (0 : Int) ≤ 0) ∧
    ((240 ≤ (padRect ⟨0, 0, 0, 0⟩ Padding).MaxX - (padRect ⟨0, 0, 0, 0⟩ Padding).MinX ∧
      240 ≤ (padRect ⟨0, 0, 0, 0⟩ Padding).MaxY - (padRect ⟨0, 0, 0, 0⟩ Padding).MinY) ∧
     (240 ≤ (NewPointTransformer ⟨0, 0, 0, 0⟩ Padding 600).Bounds.MaxX -
            (NewPointTransformer ⟨0, 0, 0, 0⟩ Padding 600).Bounds.MinX ∧
      240 ≤ (NewPointTransformer ⟨0, 0, 0, 0⟩ Padding 600).Bounds.MaxY -
            (NewPointTransformer ⟨0, 0, 0, 0⟩ Padding 600).Bounds.MinY)) :=
  ⟨⟨le_refl 0, le_refl 0⟩,
   transformer_box_nondegenerate ⟨0, 0, 0, 0⟩ 600 (le_refl 0) (le_refl 0)⟩

/-- C10: whenever a transformer is rebuilt from a tick's raw bounding
box, the overflow condition evaluated against the new transformer for
that same tick bounds is false: construction pads every side by 120,
which covers the margin of 60, and the squaring step only enlarges the
box. -/
theorem overflowCheck_after_rebuild (tb : Rect) (maxDim : Int) :
    overflowCheck (NewPointTransformer tb Padding maxDim) tb = false :=
  overflowCheck_rebuild_aux tb maxDim

/-- One loop iteration rebuilds exactly when the overflow check against
the carried transformer or the shrink check against the carried
transformer fires; the double rebuild (overflow followed by shrink
against the fresh transformer) produces the same fresh transformer. -/
lemma loopStep_eq (S : Int) (pt : PointTransformer) (tb : Rect) :
    loopStep S pt tb =
      if overflowCheck pt tb || shrinkCheck pt tb then
        NewPointTransformer tb Padding S
      else pt := by
  unfold loopStep
  cases ho : overflowCheck pt tb
  · cases hs : shrinkCheck pt tb <;> simp [ho, hs]
  · cases hs : shrinkCheck (NewPointTransformer tb Padding S) tb <;> simp [ho, hs]

/-- Applying a loop iteration to a transformer just rebuilt from the
same tick bounds leaves it unchanged: overflow cannot fire, and a shrink
rebuild reproduces the same transformer. -/
lemma loopStep_fixpoint (S : Int) (tb : Rect) :
    loopStep S (NewPointTransformer tb Padding S) tb = NewPointTransformer tb Padding S := by
  rw [loopStep_eq, overflowCheck_rebuild_aux]
  cases hs : shrinkCheck (NewPointTransformer tb Padding S) tb <;> simp [hs]

/-- C3: the transformer used to render tick `i` is rebuilt from tick
`i`'s raw bounding box exactly when `i` is the first tick, or the
overflow check (raw bounds expanded by `BotSize` strictly exceeding the
carried box on some side) fires, or the shrink check (both percentages
at most 75, computed with truncating integer division) fires against the
carried transformer; otherwise the carried transformer is kept
unchanged. -/
theorem usedTransformer_spec (S : Int) (tbs : List Rect) (i : Nat) (h : i < tbs.length) :
    usedTransformer S tbs i h =
      if i = 0 then NewPointTransformer (tbs.get ⟨i, h⟩) Padding S
      else
        (if overflowCheck (usedTransformer S tbs (i - 1) (Nat.lt_of_le_of_lt (Nat.sub_le i 1) h))
              (tbs.get ⟨i, h⟩) ||
            shrinkCheck (usedTransformer S tbs (i - 1) (Nat.lt_of_le_of_lt (Nat.sub_le i 1) h))
              (tbs.get ⟨i, h⟩) then
          NewPointTransformer (tbs.get ⟨i, h⟩) Padding S
        else usedTransformer S tbs (i - 1) (Nat.lt_of_le_of_lt (Nat.sub_le i 1) h)) := by
  cases i with
  | zero =>
    cases tbs with
    | nil => exact absurd h (by simp)
    | cons tb rest =>
      simp only [usedTransformer, List.take, List.foldl, if_pos rfl]
      exact loopStep_fixpoint S tb
  | succ j =>
    have hj : j < tbs.length := Nat.lt_of_le_of_lt (Nat.le_succ j) h
    have hstep : tbs.take (j + 1 + 1) = tbs.take (j + 1) ++ [tbs.get ⟨j + 1, h⟩] := by
      rw [List.take_succ]
      simp [List.getElem?_eq_getElem h]
    simp only [usedTransformer, Nat.succ_sub_one, Nat.succ_ne_zero, if_false]
    rw [hstep, List.foldl_append, List.foldl_cons, List.foldl_nil, loopStep_eq]

/-- A two-tick bounds sequence used by witnesses: the bots first span a
small box near the origin, then jump far northeast (triggering the
overflow rebuild). -/
def demoBounds : List Rect := [⟨0, 0, 100, 50⟩, ⟨1000, 1000, 2000, 2000⟩]

/-- C3 (witness): the rebuild characterization applied to the second
tick of the demo sequence. -/
theorem usedTransformer_spec_witness :
    1 < demoBounds.length ∧
    usedTransformer 600 demoBounds 1 (by decide) =
      if (1 : Nat) = 0 then NewPointTransformer (demoBounds.get ⟨1, by decide⟩) Padding 600
      else
        (if overflowCheck (usedTransformer 600 demoBounds 0 (by decide))
              (demoBounds.get ⟨1, by decide⟩) ||
            shrinkCheck (usedTransformer 600 demoBounds 0 (by decide))
              (demoBounds.get ⟨1, by decide⟩) then
          NewPointTransformer (demoBounds.get ⟨1, by decide⟩) Padding 600
        else usedTransformer 600 demoBounds 0 (by decide)) :=
  ⟨by decide, usedTransformer_spec 600 demoBounds 1 (by decide)⟩

/-- A living bot of the draw loop whose player id is neither 1 nor 2. -/
def rogueBot : Bot :=
  { PID := 3, BID := 0, X := 0, Y := 0, TX := 0, TY := 0, Health := 12, Fired := false,
    HitX := 0, HitY := 0, Scrap := 0, Shield := false, FPow := 0, MPow := 0, SPow := 0 }

/-- A destroyed bot (health 0) whose player id is neither 1 nor 2. -/
def deadRogueBot : Bot :=
  { PID := 3, BID := 0, X := 0, Y := 0, TX := 0, TY := 0, Health := 0, Fired := false,
    HitX := 0, HitY := 0, Scrap := 0, Shield := false, FPow := 0, MPow := 0, SPow := 0 }

/-- The draw loop aborts fatally whenever the bot list contains a living
bot whose player id is neither 1 nor 2: every earlier bot is either dead
(skipped by the `continue`) or drawn, and the offending bot reaches the
`log.Fatalf` branch. -/
lemma drawBots_error_of_mem (l : List Bot) :
    ∀ b ∈ l, 0 < b.Health → b.PID ≠ 1 → b.PID ≠ 2 →
      drawBots l = Except.error FatalTwoPlayers := by
  induction l with
  | nil =>
    intro b hb
    cases hb
  | cons c rest ih =>
    intro b hb hh h1 h2
    rcases List.mem_cons.mp hb with rfl | hmem
    · simp only [drawBots]
      rw [if_neg (by omega), if_neg h1, if_neg h2]
    · simp only [drawBots]
      split_ifs <;> first | exact ih b hmem hh h1 h2 | rfl

/-- C5 (amended): for every tick containing a living agent snapshot
(health strictly positive) whose owning-player identifier is neither 1
nor 2, rendering that tick terminates fatally, so no output is written.
Dead agents are skipped by the body loop before the identifier check, so
the living-agent restriction is necessary. -/
theorem renderTick_fatal_unknown_living_pid (t : Tick) (b : Bot) (hb : b ∈ t.Bots)
    (hh : 0 < b.Health) (h1 : b.PID ≠ 1) (h2 : b.PID ≠ 2) :
    drawBots t.Bots = Except.error FatalTwoPlayers :=
  drawBots_error_of_mem t.Bots b hb hh h1 h2

/-- C5 (witness): a tick holding one living bot with player id 3 is
rendered fatally. -/
theorem renderTick_fatal_unknown_living_pid_witness :
    rogueBot ∈ (Tick.mk 0 [rogueBot]).Bots ∧ 0 < rogueBot.Health ∧
    rogueBot.PID ≠ 1 ∧ rogueBot.PID ≠ 2 ∧
    drawBots (Tick.mk 0 [rogueBot]).Bots = Except.error FatalTwoPlayers :=
  ⟨by decide, by decide, by decide, by decide,
   renderTick_fatal_unknown_living_pid (Tick.mk 0 [rogueBot]) rogueBot
     (by decide) (by decide) (by decide) (by decide)⟩

/-- C5 (counterexample): a tick containing an agent with the unsupported
player id 3 that is dead (health 0) renders without any fatal error,
because the body loop skips dead bots before the player-id check. -/
theorem renderTick_dead_unknown_pid_ok :
    deadRogueBot.PID ≠ 1 ∧ deadRogueBot.PID ≠ 2 ∧ deadRogueBot.Health ≤ 0 ∧
    drawBots (Tick.mk 0 [deadRogueBot]).Bots = Except.ok () :=
  ⟨by decide, by decide, by decide, rfl⟩

/-- The converted array after a list of slot writes holds the quantized
frame at every written index and is untouched elsewhere, independently
of the order of the writes. -/
lemma applyWrites_eq {Q : Type} (qd : Nat → Q) (order : List Nat) :
    ∀ (converted : Nat → Option Q) (j : Nat),
      applyWrites qd order converted j =
        if j ∈ order then some (qd j) else converted j := by
  induction order with
  | nil =>
    intro converted j
    simp [applyWrites]
  | cons i rest ih =>
    intro converted j
    simp only [applyWrites]
    rw [ih]
    by_cases hj : j ∈ rest
    · simp [hj, List.mem_cons]
    · by_cases hji : j = i
      · subst hji
        simp [hj, List.mem_cons]
      · simp [hj, hji, List.mem_cons]

/-- C6: for every frame count, every published-index completion order
(any permutation of the tick indices, covering every worker count and
scheduling), and every tick index, the final quantized slot equals the
quantization of the drawn frame for that index — the same sequence the
single-threaded in-order schedule `List.range N` produces. -/
theorem pipeline_order_independent {F Q : Type} (draw : Nat → F) (quantize : F → Q)
    (N : Nat) (order : List Nat) (hperm : order.Perm (List.range N)) (i : Nat) (hi : i < N) :
    runPipeline draw quantize order i = some (quantize (draw i)) ∧
    runPipeline draw quantize order i = runPipeline draw quantize (List.range N) i := by
  have hmem : i ∈ order := hperm.mem_iff.mpr (List.mem_range.mpr hi)
  constructor
  · simp [runPipeline, applyWrites_eq, hmem]
  · simp [runPipeline, applyWrites_eq, hmem, List.mem_range.mpr hi]

/-- C6 (witness): with three frames completed in the order 2, 0, 1, slot
1 holds the quantization of frame 1, as in the in-order schedule. -/
theorem pipeline_order_independent_witness :
    ([2, 0, 1] : List Nat).Perm (List.range 3) ∧ 1 < 3 ∧
    (runPipeline (fun i => i) (fun f => f + 1) [2, 0, 1] 1 =
       some ((fun f => f + 1) ((fun i : Nat => i) 1)) ∧
     runPipeline (fun i => i) (fun f => f + 1) [2, 0, 1] 1 =
       runPipeline (fun i => i) (fun f => f + 1) (List.range 3) 1) :=
  ⟨by decide, by decide,
   pipeline_order_independent (fun i => i) (fun f => f + 1) 3 [2, 0, 1] (by decide) 1
     (by decide)⟩

/-- The four conditional updates of `boundsStep` compute the
componentwise min/max of the running rectangle and the bot position. -/
lemma boundsStep_charac (r : Rect) (b : Bot) :
    boundsStep r b =
      ⟨min r.MinX b.X, min r.MinY b.Y, max r.MaxX b.X, max r.MaxY b.Y⟩ := by
  cases r
  simp only [boundsStep]
  split_ifs <;> simp_all [Rect.mk.injEq] <;> omega

/-- Folding `boundsStep` computes, on the min-X component, a lower bound
of the seed and of every bot that is attained at the seed or at some
bot. -/
lemma foldl_boundsStep_minX (l : List Bot) :
    ∀ init : Rect,
      (l.foldl boundsStep init).MinX ≤ init.MinX ∧
      ((l.foldl boundsStep init).MinX = init.MinX ∨
        ∃ b ∈ l, (l.foldl boundsStep init).MinX = b.X) ∧
      ∀ b ∈ l, (l.foldl boundsStep init).MinX ≤ b.X := by
  induction l with
  | nil =>
    intro init
    simp
  | cons c rest ih =>
    intro init
    rw [List.foldl_cons, boundsStep_charac]
    obtain ⟨h1, h2, h3⟩ :=
      ih ⟨min init.MinX c.X, min init.MinY c.Y, max init.MaxX c.X, max init.MaxY c.Y⟩
    refine ⟨le_trans h1 (min_le_left _ _), ?_, ?_⟩
    · rcases h2 with he | ⟨b, hbmem, hbe⟩
      · rcases le_total init.MinX c.X with hc | hc
        · left
          rw [he]
          exact min_eq_left hc
        · right
          exact ⟨c, List.mem_cons_self c rest, by rw [he]; exact min_eq_right hc⟩
      · exact Or.inr ⟨b, List.mem_cons_of_mem c hbmem, hbe⟩
    · intro b hb
      rcases List.mem_cons.mp hb with rfl | hmem
      · exact le_trans h1 (min_le_right _ _)
      · exact h3 b hmem

/-- Folding `boundsStep` computes, on the min-Y component, a lower bound
of the seed and of every bot that is attained at the seed or at some
bot. -/
lemma foldl_boundsStep_minY (l : List Bot) :
    ∀ init : Rect,
      (l.foldl boundsStep init).MinY ≤ init.MinY ∧
      ((l.foldl boundsStep init).MinY = init.MinY ∨
        ∃ b ∈ l, (l.foldl boundsStep init).MinY = b.Y) ∧
      ∀ b ∈ l, (l.foldl boundsStep init).MinY ≤ b.Y := by
  induction l with
  | nil =>
    intro init
    simp
  | cons c rest ih =>
    intro init
    rw [List.foldl_cons, boundsStep_charac]
    obtain ⟨h1, h2, h3⟩ :=
      ih ⟨min init.MinX c.X, min init.MinY c.Y, max init.MaxX c.X, max init.MaxY c.Y⟩
    refine ⟨le_trans h1 (min_le_left _ _), ?_, ?_⟩
    · rcases h2 with he | ⟨b, hbmem, hbe⟩
      · rcases le_total init.MinY c.Y with hc | hc
        · left
          rw [he]
          exact min_eq_left hc
        · right
          exact ⟨c, List.mem_cons_self c rest, by rw [he]; exact min_eq_right hc⟩
      · exact Or.inr ⟨b, List.mem_cons_of_mem c hbmem, hbe⟩
    · intro b hb
      rcases List.mem_cons.mp hb with rfl | hmem
      · exact le_trans h1 (min_le_right _ _)
      · exact h3 b hmem

/-- Folding `boundsStep` computes, on the max-X component, an upper
bound of the seed and of every bot that is attained at the seed or at
some bot. -/
lemma foldl_boundsStep_maxX (l : List Bot) :
    ∀ init : Rect,
      init.MaxX ≤ (l.foldl boundsStep init).MaxX ∧
      ((l.foldl boundsStep init).MaxX = init.MaxX ∨
        ∃ b ∈ l, (l.foldl boundsStep init).MaxX = b.X) ∧
      ∀ b ∈ l, b.X ≤ (l.foldl boundsStep init).MaxX := by
  induction l with
  | nil =>
    intro init
    simp
  | cons c rest ih =>
    intro init
    rw [List.foldl_cons, boundsStep_charac]
    obtain ⟨h1, h2, h3⟩ :=
      ih ⟨min init.MinX c.X, min init.MinY c.Y, max init.MaxX c.X, max init.MaxY c.Y⟩
    refine ⟨le_trans (le_max_left _ _) h1, ?_, ?_⟩
    · rcases h2 with he | ⟨b, hbmem, hbe⟩
      · rcases le_total c.X init.MaxX with hc | hc
        · left
          rw [he]
          exact max_eq_left hc
        · right
          exact ⟨c, List.mem_cons_self c rest, by rw [he]; exact max_eq_right hc⟩
      · exact Or.inr ⟨b, List.mem_cons_of_mem c hbmem, hbe⟩
    · intro b hb
      rcases List.mem_cons.mp hb with rfl | hmem
      · exact le_trans (le_max_right _ _) h1
      · exact h3 b hmem

/-- Folding `boundsStep` computes, on the max-Y component, an upper
bound of the seed and of every bot that is attained at the seed or at
some bot. -/
lemma foldl_boundsStep_maxY (l : List Bot) :
    ∀ init : Rect,
      init.MaxY ≤ (l.foldl boundsStep init).MaxY ∧
      ((l.foldl boundsStep init).MaxY = init.MaxY ∨
        ∃ b ∈ l, (l.foldl boundsStep init).MaxY = b.Y) ∧
      ∀ b ∈ l, b.Y ≤ (l.foldl boundsStep init).MaxY := by
  induction l with
  | nil =>
    intro init
    simp
  | cons c rest ih =>
    intro init
    rw [List.foldl_cons, boundsStep_charac]
    obtain ⟨h1, h2, h3⟩ :=
      ih ⟨min init.MinX c.X, min init.MinY c.Y, max init.MaxX c.X, max init.MaxY c.Y⟩
    refine ⟨le_trans (le_max_left _ _) h1, ?_, ?_⟩
    · rcases h2 with he | ⟨b, hbmem, hbe⟩
      · rcases le_total c.Y init.MaxY with hc | hc
        · left
          rw [he]
          exact max_eq_left hc
        · right
          exact ⟨c, List.mem_cons_self c rest, by rw [he]; exact max_eq_right hc⟩
      · exact Or.inr ⟨b, List.mem_cons_of_mem c hbmem, hbe⟩
    · intro b hb
      rcases List.mem_cons.mp hb with rfl | hmem
      · exact le_trans (le_max_right _ _) h1
      · exact h3 b hmem

/-- C7: `Tick.Bounds` fails (returns `none`, modelling the out-of-range
access of the first bot) exactly when the tick has zero bots, and for a
tick with at least one bot it returns the rectangle whose min and max
components are the componentwise minimum and maximum over all bot
positions: every position lies inside the rectangle and each of the four
sides is attained by some bot. -/
theorem tick_bounds_spec (t : Tick) :
    (Tick.Bounds t = none ↔ t.Bots = []) ∧
    ∀ r, Tick.Bounds t = some r →
      ((∀ b ∈ t.Bots, r.MinX ≤ b.X ∧ b.X ≤ r.MaxX ∧ r.MinY ≤ b.Y ∧ b.Y ≤ r.MaxY) ∧
       (∃ b ∈ t.Bots, r.MinX = b.X) ∧ (∃ b ∈ t.Bots, r.MinY = b.Y) ∧
       (∃ b ∈ t.Bots, r.MaxX = b.X) ∧ (∃ b ∈ t.Bots, r.MaxY = b.Y)) := by
  obtain ⟨n, bots⟩ := t
  cases bots with
  | nil =>
    refine ⟨by simp [Tick.Bounds], ?_⟩
    intro r hr
    simp [Tick.Bounds] at hr
  | cons b0 rest =>
    refine ⟨by simp [Tick.Bounds], ?_⟩
    intro r hr
    simp only [Tick.Bounds] at hr
    injection hr with hr
    subst hr
    obtain ⟨hX1, hX2, hX3⟩ := foldl_boundsStep_minX (b0 :: rest) ⟨b0.X, b0.Y, b0.X, b0.Y⟩
    obtain ⟨hY1, hY2, hY3⟩ := foldl_boundsStep_minY (b0 :: rest) ⟨b0.X, b0.Y, b0.X, b0.Y⟩
    obtain ⟨hU1, hU2, hU3⟩ := foldl_boundsStep_maxX (b0 :: rest) ⟨b0.X, b0.Y, b0.X, b0.Y⟩
    obtain ⟨hV1, hV2, hV3⟩ := foldl_boundsStep_maxY (b0 :: rest) ⟨b0.X, b0.Y, b0.X, b0.Y⟩
    refine ⟨?_, ?_, ?_, ?_, ?_⟩
    · intro b hb
      exact ⟨hX3 b hb, hU3 b hb, hY3 b hb, hV3 b hb⟩
    · rcases hX2 with he | hex
      · exact ⟨b0, List.mem_cons_self b0 rest, he⟩
      · exact hex
    · rcases hY2 with he | hex
      · exact ⟨b0, List.mem_cons_self b0 rest, he⟩
      · exact hex
    · rcases hU2 with he | hex
      · exact ⟨b0, List.mem_cons_self b0 rest, he⟩
      · exact hex
    · rcases hV2 with he | hex
      · exact ⟨b0, List.mem_cons_self b0 rest, he⟩
      · exact hex

/-- A bot of player 1 at full health positioned at `(x, y)`. -/
def botAt (x y : Int) : Bot :=
  { PID := 1, BID := 0, X := x, Y := y, TX := 0, TY := 0, Health := 12, Fired := false,
    HitX := 0, HitY := 0, Scrap := 0, Shield := false, FPow := 0, MPow := 0, SPow := 0 }

/-- A two-bot tick used by witnesses. -/
def demoTick : Tick := ⟨0, [botAt 3 5, botAt (-2) 7]⟩

/-- C7 (witness): the bounds of the demo tick are `[-2, 3] × [5, 7]`,
contain both bots and are attained on each side. -/
theorem tick_bounds_spec_witness :
    Tick.Bounds demoTick = some ⟨-2, 5, 3, 7⟩ ∧
    ((∀ b ∈ demoTick.Bots, (-2 : Int) ≤ b.X ∧ b.X ≤ 3 ∧ (5 : Int) ≤ b.Y ∧ b.Y ≤ 7) ∧
     (∃ b ∈ demoTick.Bots, (-2 : Int) = b.X) ∧ (∃ b ∈ demoTick.Bots, (5 : Int) = b.Y) ∧
     (∃ b ∈ demoTick.Bots, (3 : Int) = b.X) ∧ (∃ b ∈ demoTick.Bots, (7 : Int) = b.Y)) :=
  ⟨by decide, (tick_bounds_spec demoTick).2 ⟨-2, 5, 3, 7⟩ (by decide)⟩

/-- Explicit form of the transformer when the padded box is strictly
wider than tall: the Y extent is expanded by the truncated half
difference and the ratio divides by the padded width. -/
lemma newPT_eq_of_wide (B : Rect) (padding maxDim : Int)
    (h : (B.MaxY + padding) - (B.MinY - padding) < (B.MaxX + padding) - (B.MinX - padding)) :
    NewPointTransformer B padding maxDim =
      { Bounds :=
          { MinX := B.MinX - padding
            MinY := (B.MinY - padding) -
              Int.tdiv (((B.MaxX + padding) - (B.MinX - padding)) -
                ((B.MaxY + padding) - (B.MinY - padding))) 2
            MaxX := B.MaxX + padding
            MaxY := (B.MaxY + padding) +
              Int.tdiv (((B.MaxX + padding) - (B.MinX - padding)) -
                ((B.MaxY + padding) - (B.MinY - padding))) 2 }
        ratio := (maxDim : ℚ) / (((B.MaxX + padding) - (B.MinX - padding) : Int) : ℚ) } := by
  simp only [NewPointTransformer, padRect]
  split
  · rfl
  · rename_i hc
    exact absurd h (by omega)

/-- Explicit form of the transformer when the padded box is at least as
tall as wide: the X extent is expanded by the truncated half difference
and the ratio divides by the padded height. -/
lemma newPT_eq_of_tall (B : Rect) (padding maxDim : Int)
    (h : (B.MaxX + padding) - (B.MinX - padding) ≤ (B.MaxY + padding) - (B.MinY - padding)) :
    NewPointTransformer B padding maxDim =
      { Bounds :=
          { MinX := (B.MinX - padding) -
              Int.tdiv (((B.MaxY + padding) - (B.MinY - padding)) -
                ((B.MaxX + padding) - (B.MinX - padding))) 2
            MinY := B.MinY - padding
            MaxX := (B.MaxX + padding) +
              Int.tdiv (((B.MaxY + padding) - (B.MinY - padding)) -
                ((B.MaxX + padding) - (B.MinX - padding))) 2
            MaxY := B.MaxY + padding }
        ratio := (maxDim : ℚ) / (((B.MaxY + padding) - (B.MinY - padding) : Int) : ℚ) } := by
  simp only [NewPointTransformer, padRect]
  split
  · rename_i hc
    exact absurd hc (by omega)
  · rfl

/-- A rational length in `[0, L]` scaled by `S / L` lands in `[0, S]`. -/
lemma ratio_bound (a L S : ℚ) (ha : 0 ≤ a) (haL : a ≤ L) (hL : 0 < L) (hS : 0 ≤ S) :
    0 ≤ a * (S / L) ∧ a * (S / L) ≤ S := by
  refine ⟨mul_nonneg ha (div_nonneg hS hL.le), ?_⟩
  calc a * (S / L) ≤ L * (S / L) := mul_le_mul_of_nonneg_right haL (div_nonneg hS hL.le)
    _ = S := by field_simp

/-- C4: for every transformer built from a well-formed bounding box with
positive padding and nonnegative target size, every world point whose
coordinates lie inside the stored expanded box maps to raster
coordinates in `[0, maxDim]` on both axes (exact rational arithmetic
models the float computation; no clamping is involved). -/
theorem transformer_maps_into_range (B : Rect) (padding maxDim px py : Int)
    (hBx : B.MinX ≤ B.MaxX) (hBy : B.MinY ≤ B.MaxY) (hpad : 0 < padding) (hS : 0 ≤ maxDim)
    (hx1 : (NewPointTransformer B padding maxDim).Bounds.MinX ≤ px)
    (hx2 : px ≤ (NewPointTransformer B padding maxDim).Bounds.MaxX)
    (hy1 : (NewPointTransformer B padding maxDim).Bounds.MinY ≤ py)
    (hy2 : py ≤ (NewPointTransformer B padding maxDim).Bounds.MaxY) :
    (0 ≤ (NewPointTransformer B padding maxDim).X px ∧
     (NewPointTransformer B padding maxDim).X px ≤ (maxDim : ℚ)) ∧
    (0 ≤ (NewPointTransformer B padding maxDim).Y py ∧
     (NewPointTransformer B padding maxDim).Y py ≤ (maxDim : ℚ)) := by
  rcases le_or_lt ((B.MaxX + padding) - (B.MinX - padding))
      ((B.MaxY + padding) - (B.MinY - padding)) with hbr | hbr
  · rw [newPT_eq_of_tall B padding maxDim hbr] at hx1 hx2 hy1 hy2 ⊢
    simp only [PointTransformer.X, PointTransformer.Y]
    dsimp only at hx1 hx2 hy1 hy2 ⊢
    have htd := tdiv_two_of_nonneg (((B.MaxY + padding) - (B.MinY - padding)) -
      ((B.MaxX + padding) - (B.MinX - padding))) (by omega)
    constructor
    · refine ratio_bound _ _ _ ?_ ?_ ?_ ?_
      · exact Int.cast_nonneg.mpr (by omega)
      · exact Int.cast_le.mpr (by omega)
      · exact Int.cast_pos.mpr (by omega)
      · exact Int.cast_nonneg.mpr hS
    · refine ratio_bound _ _ _ ?_ ?_ ?_ ?_
      · exact Int.cast_nonneg.mpr (by omega)
      · exact Int.cast_le.mpr (by omega)
      · exact Int.cast_pos.mpr (by omega)
      · exact Int.cast_nonneg.mpr hS
  · rw [newPT_eq_of_wide B padding maxDim hbr] at hx1 hx2 hy1 hy2 ⊢
    simp only [PointTransformer.X, PointTransformer.Y]
    dsimp only at hx1 hx2 hy1 hy2 ⊢
    have htd := tdiv_two_of_nonneg (((B.MaxX + padding) - (B.MinX - padding)) -
      ((B.MaxY + padding) - (B.MinY - padding))) (by omega)
    constructor
    · refine ratio_bound _ _ _ ?_ ?_ ?_ ?_
      · exact Int.cast_nonneg.mpr (by omega)
      · exact Int.cast_le.mpr (by omega)
      · exact Int.cast_pos.mpr (by omega)
      · exact Int.cast_nonneg.mpr hS
    · refine ratio_bound _ _ _ ?_ ?_ ?_ ?_
      · exact Int.cast_nonneg.mpr (by omega)
      · exact Int.cast_le.mpr (by omega)
      · exact Int.cast_pos.mpr (by omega)
      · exact Int.cast_nonneg.mpr hS

/-- C4 (witness): the spec's own example box `[0, 100] × [0, 50]` with
padding 120 and target 600, at the world origin: both raster coordinates
land in `[0, 600]`. -/
theorem transformer_maps_into_range_witness :
    ((0 : Int) ≤ 100) ∧ ((0 : Int) ≤ 50) ∧ ((0 : Int) < 120) ∧ ((0 : Int) ≤ 600) ∧
    ((NewPointTransformer ⟨0, 0, 100, 50⟩ 120 600).Bounds.MinX ≤ 0) ∧
    ((0 : Int) ≤ (NewPointTransformer ⟨0, 0, 100, 50⟩ 120 600).Bounds.MaxX) ∧
    ((NewPointTransformer ⟨0, 0, 100, 50⟩ 120 600).Bounds.MinY ≤ 0) ∧
    ((0 : Int) ≤ (NewPointTransformer ⟨0, 0, 100, 50⟩ 120 600).Bounds.MaxY) ∧
    ((0 ≤ (NewPointTransformer ⟨0, 0, 100, 50⟩ 120 600).X 0 ∧
      (NewPointTransformer ⟨0, 0, 100, 50⟩ 120 600).X 0 ≤ (600 : ℚ)) ∧
     (0 ≤ (NewPointTransformer ⟨0, 0, 100, 50⟩ 120 600).Y 0 ∧
      (NewPointTransformer ⟨0, 0, 100, 50⟩ 120 600).Y 0 ≤ (600 : ℚ))) :=
  ⟨by decide, by decide, by decide, by decide, by decide, by decide, by decide, by decide,
   transformer_maps_into_range ⟨0, 0, 100, 50⟩ 120 600 0 0 (by decide) (by decide)
     (by decide) (by decide) (by decide) (by decide) (by decide) (by decide)⟩

end Renderer
